import Mathlib

/-!
Shallow embedding of the NER data pipeline (`input_data.py`) and the
training orchestrator (`train.py`) of the cs230-code-examples repository.

The repository composes TensorFlow library primitives
(`TextLineDataset` + `string_split`, `index_table_from_file`,
`Dataset.padded_batch`, `Dataset.shuffle`, `tf.train.Saver`); those
primitives are modelled here by explicit list-processing functions, and
the repository's own code (`load_dataset_from_text`, `input_fn`,
`train_and_evaluate`) is translated directly on top of them.
Machine floats (eval accuracies) are modelled as rationals; only
comparisons on them matter to the orchestrator.
-/

namespace NER

/-- Worker for `tokenize`: scan the characters of the line, collecting
the current token in reverse in `acc` and emitting it at each space or
at the end; empty tokens are dropped. -/
def splitAux : List Char → List Char → List String
  | [], acc => if acc.isEmpty then [] else [String.mk acc.reverse]
  | c :: cs, acc =>
      if c = ' ' then
        (if acc.isEmpty then [] else [String.mk acc.reverse]) ++ splitAux cs []
      else splitAux cs (c :: acc)

/-- Modelled from the spec: `tf.string_split([string]).values` (line 17
of `input_data.py`): whitespace tokenization of one line into string
tokens, dropping empty tokens. -/
def tokenize (s : String) : List String :=
  splitAux s.toList []

/-- Modelled from the spec: the vocabulary table built by
`tf.contrib.lookup.index_table_from_file` (lines 150-151 of `train.py`):
an immutable token list (one token per line, id = line index), a number
of out-of-vocabulary hash buckets, the default value returned for
unseen tokens when there is no bucket, and the deterministic hash used
to pick a bucket. -/
structure LookupTable where
  words : List String
  numOovBuckets : Nat
  defaultValue : Int
  oovHash : String → Nat

/-- Modelled from the spec: `index_table_from_file` lookup semantics.
A token present in the list maps to its line index; an absent token
maps to `vocabSize + hash(token) % numOovBuckets` when buckets exist,
and to `defaultValue` (the library default is `-1`) otherwise.  Lookup
is a total function: it never fails. -/
def LookupTable.lookup (t : LookupTable) (tok : String) : Int :=
  if tok ∈ t.words then (t.words.indexOf tok : Int)
  else if 0 < t.numOovBuckets then
    ((t.words.length + t.oovHash tok % t.numOovBuckets : Nat) : Int)
  else t.defaultValue

/-- Table size including the OOV buckets (`params.vocab_size += 1` in
`train.py` accounts for the single word bucket). -/
def LookupTable.size (t : LookupTable) : Nat :=
  t.words.length + t.numOovBuckets

/-- The word vocabulary of `train.py` line 150:
`index_table_from_file(path_vocab_words, num_oov_buckets=1)`. -/
def vocabWords (words : List String) (hash : String → Nat) : LookupTable :=
  ⟨words, 1, -1, hash⟩

/-- The tag vocabulary of `train.py` line 151:
`index_table_from_file(path_vocab_tags)` — no OOV bucket, so the
library default value `-1` applies to unseen tags. -/
def vocabTags (tags : List String) (hash : String → Nat) : LookupTable :=
  ⟨tags, 0, -1, hash⟩

/-- `load_dataset_from_text` (lines 6-23 of `input_data.py`): one
example per input line; split the line into tokens and map each token
through the vocabulary. -/
def load_dataset_from_text (lines : List String) (vocab : LookupTable) :
    List (List Int) :=
  lines.map (fun line => (tokenize line).map vocab.lookup)

/-- Fuel-indexed worker for batching: pull a window of `b` consecutive
examples, emit it, recurse on the remainder.  The fuel equals the input
length at the entry point, which is always enough. -/
def chunkGo : Nat → Nat → List α → List (List α)
  | 0, _, _ => []
  | _, _, [] => []
  | fuel + 1, b, x :: xs =>
      (x :: xs.take (b - 1)) :: chunkGo fuel b (xs.drop (b - 1))

/-- Split an example stream into consecutive windows of `b` examples;
the final window may be shorter (a partial batch is emitted, not
dropped). -/
def chunkList (b : Nat) (l : List α) : List (List α) :=
  chunkGo l.length b l

/-- Maximum example length inside one window. -/
def maxLen (w : List (List α)) : Nat :=
  w.foldr (fun r m => max r.length m) 0

/-- Right-pad one example to length `L` with the pad value `p`. -/
def padRow (p : α) (L : Nat) (r : List α) : List α :=
  r ++ List.replicate (L - r.length) p

/-- Pad every example of one window to the window's maximum length. -/
def padWindow (p : α) (w : List (List α)) : List (List α) :=
  w.map (padRow p (maxLen w))

/-- Modelled from the spec: `Dataset.padded_batch(batch_size,
padded_shapes=[None], padding_values=pad)` (line 64 of
`input_data.py`): group consecutive examples into windows of
`batch_size` and right-pad each window to its own maximum length. -/
def padded_batch (b : Nat) (p : α) (xs : List (List α)) :
    List (List (List α)) :=
  (chunkList b xs).map (padWindow p)

/-- Modelled from the spec: `padded_batch` over a zipped
(sentences, tags) dataset with a pair of padded shapes and a pair of
padding values (lines 41-64 of `input_data.py`): each component of a
window is padded to that component's own maximum length. -/
def padded_batch_zip (b : Nat) (pw pt : α)
    (xs : List (List α × List α)) :
    List (List (List α) × List (List α)) :=
  (chunkList b xs).map
    (fun w => (padWindow pw (w.map Prod.fst), padWindow pt (w.map Prod.snd)))

/-- Modelled from the spec: the bounded reservoir of
`Dataset.shuffle(buffer_size)` (line 65 of `input_data.py`).  The
buffer holds the next batches; each request draws one at a random
index (here: the next entry of `draws`, reduced mod the buffer size),
emits it, and backfills one batch from upstream when upstream is
nonempty.  Fuel equals the total element count at the entry point. -/
def shuffleGo : Nat → List α → List α → List Nat → List α
  | 0, _, _, _ => []
  | _, [], _, _ => []
  | fuel + 1, b :: bs, rest, draws =>
      let buf := b :: bs
      let j := draws.headD 0 % buf.length
      buf.getD j b ::
        shuffleGo fuel (buf.eraseIdx j ++ rest.take 1) (rest.drop 1)
          (draws.drop 1)

/-- Run the shuffle stage with buffer size `N` over the batch stream
`up`, consuming the pseudo-random index stream `draws`. -/
def shuffle (N : Nat) (up : List α) (draws : List Nat) : List α :=
  shuffleGo up.length (up.take N) (up.drop N) draws

/-- Modelled from the spec: `Dataset.prefetch(1)` (line 66 of
`input_data.py`) keeps one batch materialized ahead of the consumer;
it does not alter the batch sequence. -/
def prefetch (_k : Nat) (xs : List α) : List α := xs

/-- `input_fn` (lines 26-89 of `input_data.py`), sentences-only form:
`buffer_size = 100 if is_training else 1`, then
`padded_batch → shuffle → prefetch`. -/
def input_fn (is_training : Bool) (sentences : List (List Int))
    (batch_size : Nat) (pad_word : Int) (draws : List Nat) :
    List (List (List Int)) :=
  let buffer_size := if is_training then 100 else 1
  prefetch 1 (shuffle buffer_size (padded_batch batch_size pad_word sentences) draws)

/-- `input_fn` with tags: the two datasets are zipped (line 42) before
batching, then shuffled and prefetched as above. -/
def input_fn_zip (is_training : Bool)
    (sentences tags : List (List Int)) (batch_size : Nat)
    (pad_word pad_tag : Int) (draws : List Nat) :
    List (List (List Int) × List (List Int)) :=
  let buffer_size := if is_training then 100 else 1
  prefetch 1
    (shuffle buffer_size
      (padded_batch_zip batch_size pad_word pad_tag (sentences.zip tags)) draws)

/-- The hyperparameters `train_and_evaluate` reads (`train.py` line
79): `num_epochs, train_size, batch_size, eval_size`. -/
structure Params where
  num_epochs : Nat
  train_size : Nat
  batch_size : Nat
  eval_size : Nat

/-- `num_steps = (params.train_size + 1) // params.batch_size`
(`train.py` line 105). -/
def trainNumSteps (p : Params) : Nat :=
  (p.train_size + 1) / p.batch_size

/-- `num_steps = (params.eval_size + 1) // params.batch_size`
(`train.py` line 113). -/
def evalNumSteps (p : Params) : Nat :=
  (p.eval_size + 1) / p.batch_size

/-- Modelled from the spec: the rotation of `tf.train.Saver()` with its
default `max_to_keep=5` ("will keep last 5 epochs", `train.py` line
82): appending a new checkpoint deletes the oldest ones beyond
`maxToKeep`. -/
def saverSave (maxToKeep : Nat) (kept : List Nat) (e : Nat) : List Nat :=
  let k := kept ++ [e]
  k.drop (k.length - maxToKeep)

/-- The orchestrator state tracked across epochs by
`train_and_evaluate`: the best eval accuracy seen so far (initialized
to `0.0` at line 100), the epoch tag of the retained best checkpoint,
the epochs at which `metrics_eval_best_weights.json` was written, and
the rotating list of "last" checkpoints. -/
structure TrainState where
  best_eval_acc : ℚ
  bestCkptEpoch : Option Nat
  bestJsonEpochs : List Nat
  lastCkpts : List Nat
  deriving DecidableEq, Repr

/-- The state entering the epoch loop: `best_eval_acc = 0.0`, nothing
saved yet. -/
def initState : TrainState := ⟨0, none, [], []⟩

/-- One iteration of the epoch loop (`train.py` lines 101-131), with
the epoch's eval accuracy supplied as data: save a "last" checkpoint
tagged `epoch + 1`; then, if `eval_acc >= best_eval_acc`, record the
new best accuracy, save the best checkpoint tagged `epoch + 1` and
write `metrics_eval_best_weights.json`. -/
def epochStep (s : TrainState) (ea : Nat × ℚ) : TrainState :=
  if s.best_eval_acc ≤ ea.2 then
    { best_eval_acc := ea.2
      bestCkptEpoch := some (ea.1 + 1)
      bestJsonEpochs := s.bestJsonEpochs ++ [ea.1 + 1]
      lastCkpts := saverSave 5 s.lastCkpts (ea.1 + 1) }
  else
    { s with lastCkpts := saverSave 5 s.lastCkpts (ea.1 + 1) }

/-- `train_and_evaluate` (`train.py` lines 71-131) abstracted over the
opaque model: fold the epoch loop over the sequence of per-epoch eval
accuracies, starting from `best_eval_acc = 0.0`. -/
def train_and_evaluate (accs : List ℚ) : TrainState :=
  accs.enum.foldl epochStep initState

/-- Concrete word vocabulary used by the end-to-end scenario:
`{a:0, b:1, c:2, d:3, e:4}` plus one OOV bucket, so the OOV id (and
the pad-word id) is 5. -/
def exampleVocab : LookupTable :=
  vocabWords ["a", "b", "c", "d", "e"] (fun _ => 0)

/-! ### Structural lemmas about the padded batcher -/

theorem maxLen_cons {α : Type} (x : List α) (xs : List (List α)) :
    maxLen (x :: xs) = max x.length (maxLen xs) := rfl

theorem maxLen_ge {α : Type} (w : List (List α)) :
    ∀ r ∈ w, r.length ≤ maxLen w := by
  induction w with
  | nil => intro r hr; cases hr
  | cons x xs ih =>
    intro r hr
    rcases List.mem_cons.mp hr with h | h
    · subst h; rw [maxLen_cons]; exact Nat.le_max_left _ _
    · exact Nat.le_trans (ih r h) (by rw [maxLen_cons]; exact Nat.le_max_right _ _)

theorem padRow_length {α : Type} (p : α) (L : Nat) (r : List α)
    (h : r.length ≤ L) : (padRow p L r).length = L := by
  simp only [padRow, List.length_append, List.length_replicate]
  omega

theorem padWindow_rows {α : Type} (p : α) (w : List (List α)) :
    ∀ r ∈ padWindow p w,
      r.length = maxLen w
      ∧ ∃ orig ∈ w, r = orig ++ List.replicate (maxLen w - orig.length) p := by
  intro r hr
  rcases List.mem_map.mp hr with ⟨orig, ho, rfl⟩
  exact ⟨padRow_length _ _ _ (maxLen_ge w orig ho), orig, ho, rfl⟩

theorem chunkGo_flatten {α : Type} :
    ∀ (fuel b : Nat) (l : List α), l.length ≤ fuel → 1 ≤ b →
      (chunkGo fuel b l).flatten = l := by
  intro fuel
  induction fuel with
  | zero =>
    intro b l hl _
    have : l = [] := List.length_eq_zero.mp (Nat.le_zero.mp hl)
    subst this; rfl
  | succ n ih =>
    intro b l hl hb
    cases l with
    | nil => rfl
    | cons x xs =>
      simp only [chunkGo, List.flatten_cons]
      rw [ih b (xs.drop (b - 1)) (by simp only [List.length_drop]; simp at hl; omega) hb]
      simp [List.take_append_drop]

theorem chunkGo_length {α : Type} :
    ∀ (fuel b : Nat) (l : List α), l.length ≤ fuel → 1 ≤ b →
      (chunkGo fuel b l).length = (l.length + b - 1) / b := by
  intro fuel
  induction fuel with
  | zero =>
    intro b l hl hb
    have : l = [] := List.length_eq_zero.mp (Nat.le_zero.mp hl)
    subst this
    simp only [chunkGo, List.length_nil]
    rw [Nat.div_eq_of_lt (by omega)]
  | succ n ih =>
    intro b l hl hb
    cases l with
    | nil =>
      simp only [chunkGo, List.length_nil]
      rw [Nat.div_eq_of_lt (by omega)]
    | cons x xs =>
      simp only [chunkGo, List.length_cons]
      rw [ih b (xs.drop (b - 1)) (by simp only [List.length_drop]; simp at hl; omega) hb]
      simp only [List.length_drop]
      have hrhs : (xs.length + 1 + b - 1) / b = xs.length / b + 1 := by
        have : xs.length + 1 + b - 1 = xs.length + b := by omega
        rw [this, Nat.add_div_right _ (by omega)]
      rw [hrhs]
      rcases Nat.lt_or_ge xs.length (b - 1) with hcase | hcase
      · have h1 : xs.length - (b - 1) = 0 := by omega
        rw [h1, Nat.div_eq_of_lt (by omega), Nat.div_eq_of_lt (by omega)]
      · have h1 : xs.length - (b - 1) + b - 1 = xs.length := by omega
        rw [h1]

theorem chunkList_flatten {α : Type} (b : Nat) (l : List α) (hb : 1 ≤ b) :
    (chunkList b l).flatten = l :=
  chunkGo_flatten l.length b l le_rfl hb

theorem chunkList_length {α : Type} (b : Nat) (l : List α) (hb : 1 ≤ b) :
    (chunkList b l).length = (l.length + b - 1) / b :=
  chunkGo_length l.length b l le_rfl hb

theorem mem_of_mem_chunkList {α : Type} {b : Nat} {l : List α}
    {w : List α} {x : α} (hb : 1 ≤ b) (hw : w ∈ chunkList b l) (hx : x ∈ w) :
    x ∈ l := by
  rw [← chunkList_flatten b l hb]
  exact List.mem_flatten.mpr ⟨w, hw, hx⟩

theorem maxLen_fst_snd {α : Type} :
    ∀ (w : List (List α × List α)),
      (∀ pr ∈ w, (Prod.fst pr).length = (Prod.snd pr).length) →
      maxLen (w.map Prod.fst) = maxLen (w.map Prod.snd) := by
  intro w
  induction w with
  | nil => intro _; rfl
  | cons pr w ih =>
    intro h
    simp only [List.map_cons, maxLen_cons]
    rw [h pr (List.mem_cons_self _ _), ih (fun q hq => h q (List.mem_cons_of_mem _ hq))]

/-! ### Structural lemmas about the shuffle reservoir -/

theorem shuffleGo_nil_buf {α : Type} (fuel : Nat) (rest : List α)
    (draws : List Nat) : shuffleGo fuel ([] : List α) rest draws = [] := by
  cases fuel <;> rfl

/-- Every batch emitted at output position `i` by the reservoir was
either in the initial buffer or among the first `i` batches pulled
from upstream afterwards. -/
theorem shuffleGo_mem {α : Type} :
    ∀ (fuel : Nat) (buf rest : List α) (draws : List Nat) (i : Nat) (x : α),
      (shuffleGo fuel buf rest draws)[i]? = some x →
      x ∈ buf ∨ x ∈ rest.take i := by
  intro fuel
  induction fuel with
  | zero => intro buf rest draws i x h; simp [shuffleGo] at h
  | succ n ih =>
    intro buf rest draws i x h
    cases buf with
    | nil => rw [shuffleGo_nil_buf] at h; simp at h
    | cons b bs =>
      simp only [shuffleGo] at h
      cases i with
      | zero =>
        rw [List.getElem?_cons_zero, Option.some.injEq] at h
        left
        have hj : draws.headD 0 % (b :: bs).length < (b :: bs).length :=
          Nat.mod_lt _ (by simp)
        rw [← h, List.getD_eq_getElem?_getD, List.getElem?_eq_getElem hj]
        exact List.getElem_mem hj
      | succ i =>
        rw [List.getElem?_cons_succ] at h
        rcases ih _ _ _ _ _ h with hbuf | hrest
        · rcases List.mem_append.mp hbuf with h1 | h2
          · exact Or.inl (List.mem_of_mem_eraseIdx h1)
          · right
            cases rest with
            | nil => simp at h2
            | cons r rs =>
              simp only [List.take_succ_cons, List.take_zero] at h2 ⊢
              rcases List.mem_singleton.mp h2 with rfl
              exact List.mem_cons_self _ _
        · right
          cases rest with
          | nil => simp at hrest
          | cons r rs =>
            simp only [List.drop_succ_cons, List.drop_zero] at hrest
            simp only [List.take_succ_cons]
            exact List.mem_cons_of_mem _ hrest

theorem mem_of_mem_shuffle {α : Type} {N : Nat} {l : List α}
    {draws : List Nat} {x : α} (h : x ∈ shuffle N l draws) : x ∈ l := by
  rcases List.mem_iff_getElem?.mp h with ⟨i, hi⟩
  rcases shuffleGo_mem _ _ _ _ _ _ hi with hb | hr
  · exact List.take_subset _ _ hb
  · exact List.drop_subset _ _ (List.take_subset _ _ hr)

/-- A reservoir of size 1 cannot reorder: the shuffle stage with
`buffer_size = 1` is the identity on the batch stream, whatever the
random draws are. -/
theorem shuffleGo_buffer_one {α : Type} :
    ∀ (fuel : Nat) (l : List α) (draws : List Nat), l.length ≤ fuel →
      shuffleGo fuel (l.take 1) (l.drop 1) draws = l := by
  intro fuel
  induction fuel with
  | zero =>
    intro l draws hl
    have : l = [] := List.length_eq_zero.mp (Nat.le_zero.mp hl)
    subst this; rfl
  | succ n ih =>
    intro l draws hl
    cases l with
    | nil => rfl
    | cons x xs =>
      simp only [List.take_succ_cons, List.take_zero, List.drop_succ_cons,
        List.drop_zero, shuffleGo, List.length_singleton, Nat.mod_one,
        List.getD, List.eraseIdx, List.nil_append]
      rw [ih xs (List.drop 1 draws) (by simp at hl; omega)]
      rfl

theorem shuffle_buffer_one_id {α : Type} (l : List α) (draws : List Nat) :
    shuffle 1 l draws = l :=
  shuffleGo_buffer_one l.length l draws le_rfl

/-! ### Structural lemmas about the epoch orchestrator -/

theorem epochStep_lastCkpts (s : TrainState) (ea : Nat × ℚ) :
    (epochStep s ea).lastCkpts = saverSave 5 s.lastCkpts (ea.1 + 1) := by
  unfold epochStep
  split <;> rfl

/-- The "last" checkpoints after the epoch loop only depend on the
number of epochs run: they are the result of rotating in the epoch
tags `k+1, ..., k+n` in order. -/
theorem foldl_epochStep_lastCkpts :
    ∀ (accs : List ℚ) (k : Nat) (s : TrainState),
      ((List.enumFrom k accs).foldl epochStep s).lastCkpts
        = (List.range' k accs.length).foldl
            (fun kept e => saverSave 5 kept (e + 1)) s.lastCkpts := by
  intro accs
  induction accs with
  | nil => intro k s; rfl
  | cons a as ih =>
    intro k s
    rw [List.enumFrom_cons, List.foldl_cons, ih, List.length_cons,
      List.range'_succ, List.foldl_cons, epochStep_lastCkpts]

theorem saverSave_le_five (kept : List Nat) (e : Nat) :
    (saverSave 5 kept e).length ≤ 5 := by
  simp only [saverSave, List.length_drop, List.length_append,
    List.length_singleton]
  omega

theorem foldl_saver_le_five :
    ∀ (l : List Nat) (kept : List Nat), kept.length ≤ 5 →
      (l.foldl (fun kept e => saverSave 5 kept (e + 1)) kept).length ≤ 5 := by
  intro l
  induction l with
  | nil => intro kept h; exact h
  | cons e es ih =>
    intro kept h
    rw [List.foldl_cons]
    exact ih _ (saverSave_le_five _ _)

theorem snd_mem_of_mem_enumFrom {α : Type} :
    ∀ (l : List α) (k : Nat) (ea : Nat × α),
      ea ∈ List.enumFrom k l → ea.2 ∈ l := by
  intro l
  induction l with
  | nil => intro k ea h; cases h
  | cons a as ih =>
    intro k ea h
    rw [List.enumFrom_cons] at h
    rcases List.mem_cons.mp h with h | h
    · subst h; exact List.mem_cons_self _ _
    · exact List.mem_cons_of_mem _ (ih _ _ h)

/-- If every remaining epoch's accuracy is negative while the recorded
best is nonnegative, the best-checkpoint bookkeeping never changes
again. -/
theorem foldl_epochStep_neg :
    ∀ (l : List (Nat × ℚ)) (s : TrainState),
      (∀ ea ∈ l, ea.2 < 0) → 0 ≤ s.best_eval_acc →
      (l.foldl epochStep s).bestCkptEpoch = s.bestCkptEpoch
      ∧ (l.foldl epochStep s).bestJsonEpochs = s.bestJsonEpochs
      ∧ (l.foldl epochStep s).best_eval_acc = s.best_eval_acc := by
  intro l
  induction l with
  | nil => intro s _ _; exact ⟨rfl, rfl, rfl⟩
  | cons ea l ih =>
    intro s hneg hpos
    rw [List.foldl_cons]
    have hlt : ea.2 < 0 := hneg ea (List.mem_cons_self _ _)
    have hstep : epochStep s ea
        = { s with lastCkpts := saverSave 5 s.lastCkpts (ea.1 + 1) } := by
      unfold epochStep
      rw [if_neg (by intro hc; linarith)]
    rw [hstep]
    exact ih _ (fun x hx => hneg x (List.mem_cons_of_mem _ hx)) hpos

/-! ### The claims -/

/-- C1: every batch produced by the padded batcher of `input_fn`
consists of sequences of one common length, the maximum original
example length of that batch's window; shorter examples are extended
on the right with the pad value and are otherwise unchanged; a final
partial window is still emitted (nothing is dropped, and the batch
count is the ceiling of size/batchSize); and the end-to-end scenario
`["a b c", "d e"]` with vocabulary `{a:0,...,e:4}`, OOV id 5,
`padWord = 5`, `batchSize = 2` yields the single batch
`[[0,1,2],[3,4,5]]`. -/
theorem padded_batch_padding_invariant (b : Nat) (hb : 1 ≤ b) (p : Int)
    (xs : List (List Int)) :
    ((∀ w ∈ chunkList b xs, ∀ r ∈ padWindow p w,
        r.length = maxLen w
        ∧ ∃ orig ∈ w, r = orig ++ List.replicate (maxLen w - orig.length) p)
      ∧ padded_batch b p xs = (chunkList b xs).map (padWindow p)
      ∧ (chunkList b xs).flatten = xs
      ∧ (chunkList b xs).length = (xs.length + b - 1) / b)
    ∧ padded_batch 2 5 (load_dataset_from_text ["a b c", "d e"] exampleVocab)
        = [[[0, 1, 2], [3, 4, 5]]] := by
  refine ⟨⟨?_, rfl, chunkList_flatten b xs hb, chunkList_length b xs hb⟩,
    by decide⟩
  intro w _ r hr
  exact padWindow_rows p w r hr

/-- Witness for C1 at the concrete end-to-end scenario. -/
theorem padded_batch_padding_invariant_witness :
    padded_batch 2 5 (load_dataset_from_text ["a b c", "d e"] exampleVocab)
      = [[[0, 1, 2], [3, 4, 5]]] :=
  (padded_batch_padding_invariant 2 (by decide) 5
    (load_dataset_from_text ["a b c", "d e"] exampleVocab)).2

/-- C2 (amended): lookup is a total function for both tables.  For the
word vocabulary (one OOV bucket) every lookup lands in `[0, size())`
and every unseen token gets the single reserved OOV id
`words.length`, independently of the bucket hash, so repeated lookups
agree.  For the tag vocabulary (no OOV bucket) an unseen tag maps to
the constant default `-1`, which is outside `[0, size())`. -/
theorem vocab_lookup_totality (words tags : List String)
    (hash hash2 : String → Nat) (tok : String) :
    (0 ≤ (vocabWords words hash).lookup tok
      ∧ (vocabWords words hash).lookup tok < (vocabWords words hash).size)
    ∧ (tok ∉ words →
        (vocabWords words hash).lookup tok = words.length
        ∧ (vocabWords words hash2).lookup tok = (vocabWords words hash).lookup tok)
    ∧ (tok ∉ tags → (vocabTags tags hash).lookup tok = -1) := by
  refine ⟨?_, ?_, ?_⟩
  · by_cases htok : tok ∈ words
    · simp only [LookupTable.lookup, vocabWords, LookupTable.size, if_pos htok]
      constructor
      · exact Int.natCast_nonneg _
      · have := List.indexOf_lt_length.mpr htok
        push_cast
        omega
    · simp only [LookupTable.lookup, vocabWords, LookupTable.size, if_neg htok,
        Nat.lt_irrefl, Nat.mod_one, if_pos Nat.one_pos, Nat.add_zero]
      constructor
      · exact Int.natCast_nonneg _
      · push_cast
        omega
  · intro htok
    simp [LookupTable.lookup, vocabWords, if_neg htok]
  · intro htok
    simp [LookupTable.lookup, vocabTags, if_neg htok]

/-- Witness for C2 (amended): the word vocabulary of the end-to-end
scenario maps the unseen token "oov" into range, namely to the OOV
id 5 = words.length. -/
theorem vocab_lookup_totality_witness :
    exampleVocab.lookup "oov" = ((5 : Nat) : Int)
    ∧ 0 ≤ exampleVocab.lookup "oov"
    ∧ exampleVocab.lookup "oov" < exampleVocab.size := by
  have h := vocab_lookup_totality ["a", "b", "c", "d", "e"] []
    (fun _ => 0) (fun _ => 0) "oov"
  refine ⟨?_, h.1⟩
  have h5 := (h.2.1 (by decide)).1
  simpa using h5

/-- A concrete tag vocabulary in the shape of `data/NER/tags.txt`,
built exactly like `train.py` line 151 builds `vocab_tags`. -/
def exampleTagVocab : LookupTable :=
  vocabTags ["O", "B-PER", "I-PER"] (fun _ => 0)

/-- C2 counterexample: the tag vocabulary is built without an OOV
bucket (`index_table_from_file(path_vocab_tags)`, `train.py` line
151), so looking up a tag absent from the tag file returns the
default value `-1`, which is not a valid id in `[0, size())`. -/
theorem tag_vocab_lookup_out_of_range :
    exampleTagVocab.lookup "B-LOC" = -1
    ∧ ¬ (0 ≤ exampleTagVocab.lookup "B-LOC") := by decide

/-- C3: a best checkpoint is saved after an epoch if and only if the
epoch's eval accuracy is `>=` the best recorded so far (so ties favor
the most recent epoch), each such save also writing
`metrics_eval_best_weights.json`; for the accuracy sequence
`[0.5, 0.7, 0.6, 0.9, 0.8]` the retained best checkpoint is epoch 4's
(accuracy 0.9), never overwritten by epoch 5, and the best-metrics
file was written exactly at epochs 1, 2 and 4. -/
theorem best_checkpoint_tie_policy :
    (∀ (s : TrainState) (e : Nat) (a : ℚ),
      (s.best_eval_acc ≤ a →
        (epochStep s (e, a)).bestCkptEpoch = some (e + 1)
        ∧ (epochStep s (e, a)).bestJsonEpochs = s.bestJsonEpochs ++ [e + 1]
        ∧ (epochStep s (e, a)).best_eval_acc = a)
      ∧ (a < s.best_eval_acc →
        (epochStep s (e, a)).bestCkptEpoch = s.bestCkptEpoch
        ∧ (epochStep s (e, a)).bestJsonEpochs = s.bestJsonEpochs
        ∧ (epochStep s (e, a)).best_eval_acc = s.best_eval_acc))
    ∧ (train_and_evaluate [1/2, 7/10, 3/5, 9/10, 4/5]).bestCkptEpoch = some 4
    ∧ (train_and_evaluate [1/2, 7/10, 3/5, 9/10, 4/5]).best_eval_acc = 9/10
    ∧ (train_and_evaluate [1/2, 7/10, 3/5, 9/10, 4/5]).bestJsonEpochs = [1, 2, 4] := by
  refine ⟨?_, ?_, ?_, ?_⟩
  · intro s e a
    constructor
    · intro hle
      unfold epochStep
      rw [if_pos hle]
      exact ⟨rfl, rfl, rfl⟩
    · intro hlt
      unfold epochStep
      rw [if_neg (by intro hc; exact absurd hc (not_le.mpr hlt))]
      exact ⟨rfl, rfl, rfl⟩
  all_goals
    norm_num [train_and_evaluate, epochStep, initState, saverSave,
      List.enum, List.enumFrom]

/-- Witness for C3: in the initial state (best = 0.0), an epoch with
accuracy 1/2 ≥ 0 saves a best checkpoint tagged epoch 1. -/
theorem best_checkpoint_tie_policy_witness :
    (epochStep initState (0, 1/2)).bestCkptEpoch = some 1 :=
  ((best_checkpoint_tie_policy.1 initState 0 (1/2)).1
    (by norm_num [initState])).1

/-- C4 (amended): with buffer size `N`, the batch emitted at output
position `i` was pulled from an upstream position at most `i + N - 1`
(never more than `N - 1` positions later); no lower bound holds, since
a batch can linger in the reservoir. -/
theorem shuffle_window_upper_bound (N n : Nat) (hN : 1 ≤ N)
    (draws : List Nat) (i p : Nat)
    (h : (shuffle N (List.range n) draws)[i]? = some p) :
    p ≤ i + N - 1 := by
  rcases shuffleGo_mem _ _ _ _ _ _ h with hb | hr
  · have hp : p ∈ List.range (min N n) := by
      rw [← List.take_range]; exact hb
    have := List.mem_range.mp hp
    omega
  · rcases List.mem_iff_getElem?.mp hr with ⟨j, hj⟩
    have hjlen : j < (((List.range n).drop N).take i).length :=
      (List.getElem?_eq_some_iff.mp hj).1
    rw [List.getElem?_take] at hj
    have hji : j < i := by
      rw [List.length_take, List.length_drop] at hjlen
      omega
    rw [if_pos hji, List.getElem?_drop] at hj
    have hlt : N + j < n := by
      by_contra hge
      rw [List.getElem?_eq_none (by simp; omega)] at hj
      cases hj
    rw [List.getElem?_range hlt, Option.some.injEq] at hj
    omega

/-- Witness for C4 (amended): buffer size 2 over 3 upstream batches
with draw sequence `[0,0,0]` emits upstream batch 1 at position 1, and
`1 ≤ 1 + 2 - 1`. -/
theorem shuffle_window_upper_bound_witness :
    (shuffle 2 (List.range 3) [0, 0, 0])[1]? = some 1
    ∧ (1 : Nat) ≤ 1 + 2 - 1 :=
  ⟨by decide,
   shuffle_window_upper_bound 2 3 (by decide) [0, 0, 0] 1 1 (by decide)⟩

/-- C4 counterexample: with buffer size `N = 2` over upstream batches
`0, 1, 2` and draws `[1, 1, 0]`, the batch emitted at output position
`i = 2` is upstream batch `0`, which is earlier than `i`; so the
claimed lower bound ("never from an upstream position earlier than i")
fails. -/
theorem shuffle_window_lower_bound_fails :
    (shuffle 2 (List.range 3) [1, 1, 0])[2]? = some 0
    ∧ ¬ ((2 : Nat) ≤ 0) := by decide

/-- C5: the per-epoch step count is `(datasetSize + 1) / batchSize`
for both the training phase (from `train_size`) and the evaluation
phase (from `eval_size`); in particular `train_size = 11` with
`batch_size = 5` yields 2 steps. -/
theorem num_steps_both_phases :
    (∀ q : Params,
      trainNumSteps q = (q.train_size + 1) / q.batch_size
      ∧ evalNumSteps q = (q.eval_size + 1) / q.batch_size)
    ∧ trainNumSteps ⟨5, 11, 5, 11⟩ = 2
    ∧ evalNumSteps ⟨5, 11, 5, 11⟩ = 2 :=
  ⟨fun _ => ⟨rfl, rfl⟩, by decide, by decide⟩

/-- C6: the "last" saver (`tf.train.Saver()` with its default
`max_to_keep = 5`) retains at most the 5 most recent per-epoch
checkpoints, rotating out older ones; after any 7-epoch run exactly
the checkpoints of epochs 3–7 remain. -/
theorem last_checkpoint_rotation :
    (∀ accs : List ℚ, (train_and_evaluate accs).lastCkpts.length ≤ 5)
    ∧ (∀ accs : List ℚ, accs.length = 7 →
        (train_and_evaluate accs).lastCkpts = [3, 4, 5, 6, 7]) := by
  have key : ∀ accs : List ℚ,
      (train_and_evaluate accs).lastCkpts
        = (List.range' 0 accs.length).foldl
            (fun kept e => saverSave 5 kept (e + 1)) [] := by
    intro accs
    exact foldl_epochStep_lastCkpts accs 0 initState
  constructor
  · intro accs
    rw [key]
    exact foldl_saver_le_five _ [] (by simp)
  · intro accs h7
    rw [key, h7]
    decide

/-- Witness for C6 at a concrete 7-epoch accuracy sequence. -/
theorem last_checkpoint_rotation_witness :
    (train_and_evaluate [0, 0, 0, 0, 0, 0, 0]).lastCkpts = [3, 4, 5, 6, 7] :=
  last_checkpoint_rotation.2 [0, 0, 0, 0, 0, 0, 0] rfl

/-- C7: with shuffling disabled (evaluation pipeline,
`buffer_size = 1`), two runs of the dataset-source-plus-batcher
pipeline from fresh initialization produce identical ordered batch
sequences — whatever random draws each run would consume — and each
run equals the plain padded batch sequence replayed from the start. -/
theorem eval_pipeline_restartable (b : Nat) (p : Int) (xs : List (List Int))
    (draws1 draws2 : List Nat) :
    input_fn false xs b p draws1 = input_fn false xs b p draws2
    ∧ input_fn false xs b p draws1 = padded_batch b p xs := by
  have h : ∀ draws, input_fn false xs b p draws = padded_batch b p xs := by
    intro draws
    show shuffle 1 (padded_batch b p xs) draws = padded_batch b p xs
    exact shuffle_buffer_one_id _ _
  exact ⟨(h draws1).trans (h draws2).symm, h draws1⟩

/-- C8: if every zipped (sentence, tags) input pair has equal lengths,
then in every batch the pipeline emits, every padded sentence row and
every padded tag row have the same length, although the two components
are padded with independently supplied pad values. -/
theorem zip_batch_length_coincidence (tr : Bool) (b : Nat) (hb : 1 ≤ b)
    (pw pt : Int) (sentences tags : List (List Int)) (draws : List Nat)
    (hlen : ∀ pr ∈ sentences.zip tags,
      (Prod.fst pr).length = (Prod.snd pr).length)
    (batch : List (List Int) × List (List Int))
    (hmem : batch ∈ input_fn_zip tr sentences tags b pw pt draws) :
    ∀ r ∈ batch.1, ∀ s ∈ batch.2, r.length = s.length := by
  have hmem2 : batch ∈ padded_batch_zip b pw pt (sentences.zip tags) :=
    mem_of_mem_shuffle hmem
  rcases List.mem_map.mp hmem2 with ⟨w, hw, rfl⟩
  intro r hr s hs
  have h1 := (padWindow_rows pw (w.map Prod.fst) r hr).1
  have h2 := (padWindow_rows pt (w.map Prod.snd) s hs).1
  rw [h1, h2]
  exact maxLen_fst_snd w (fun q hq => hlen q (mem_of_mem_chunkList hb hw hq))

/-- Witness for C8 at a concrete zipped dataset. -/
theorem zip_batch_length_coincidence_witness :
    ([0, 1] : List Int).length = ([5, 6] : List Int).length :=
  zip_batch_length_coincidence false 2 (by decide) 9 9
    [[0, 1], [2]] [[5, 6], [7]] [] (by decide)
    ([[0, 1], [2, 9]], [[5, 6], [7, 9]]) (by decide)
    [0, 1] (by decide) [5, 6] (by decide)

/-- C9: for `batch_size ≥ 2` the computed step count
`(size + 1) / batch_size` never exceeds the
`ceil(size / batch_size)` batches the batcher produces, so the epoch
loop never exhausts the pipeline; for `batch_size = 1` the step count
is `size + 1` while only `size` batches exist, one more request than
the pipeline can supply. -/
theorem step_count_vs_batch_count (q : Params) (p : Int)
    (xs : List (List Int)) (hsize : q.train_size = xs.length) :
    (2 ≤ q.batch_size →
      trainNumSteps q ≤ (padded_batch q.batch_size p xs).length)
    ∧ (1 ≤ q.batch_size →
      (padded_batch q.batch_size p xs).length
        = (xs.length + q.batch_size - 1) / q.batch_size)
    ∧ (q.batch_size = 1 →
      trainNumSteps q = xs.length + 1
      ∧ (padded_batch 1 p xs).length = xs.length) := by
  have hlen : ∀ bs : Nat, 1 ≤ bs →
      (padded_batch bs p xs).length = (xs.length + bs - 1) / bs := by
    intro bs hbs
    simp only [padded_batch, List.length_map]
    exact chunkList_length bs xs hbs
  refine ⟨?_, fun hbs => hlen _ hbs, ?_⟩
  · intro hb
    rw [hlen _ (by omega)]
    simp only [trainNumSteps, hsize]
    exact Nat.div_le_div_right (by omega)
  · intro hb1
    constructor
    · simp only [trainNumSteps, hsize, hb1, Nat.div_one]
    · rw [hlen 1 le_rfl, Nat.add_sub_cancel, Nat.div_one]

/-- Witness for C9 with 3 examples and batch size 2. -/
theorem step_count_vs_batch_count_witness :
    trainNumSteps ⟨1, 3, 2, 3⟩ ≤ (padded_batch 2 (0 : Int) [[0], [1], [2]]).length :=
  (step_count_vs_batch_count ⟨1, 3, 2, 3⟩ 0 [[0], [1], [2]] rfl).1 (by decide)

/-- C10: the best-so-far accuracy starts at 0.0 (not -∞): the first
epoch writes a best checkpoint and `metrics_eval_best_weights.json`
exactly when its accuracy is `≥ 0.0`, and if every epoch's accuracy is
strictly negative no best checkpoint and no best-metrics file is ever
written. -/
theorem best_init_zero_policy :
    initState.best_eval_acc = 0
    ∧ (∀ a : ℚ, 0 ≤ a →
        (epochStep initState (0, a)).bestCkptEpoch = some 1
        ∧ (epochStep initState (0, a)).bestJsonEpochs = [1])
    ∧ (∀ a : ℚ, a < 0 →
        (epochStep initState (0, a)).bestCkptEpoch = none
        ∧ (epochStep initState (0, a)).bestJsonEpochs = [])
    ∧ (∀ accs : List ℚ, (∀ x ∈ accs, x < 0) →
        (train_and_evaluate accs).bestCkptEpoch = none
        ∧ (train_and_evaluate accs).bestJsonEpochs = []) := by
  refine ⟨rfl, ?_, ?_, ?_⟩
  · intro a ha
    unfold epochStep
    rw [if_pos (show initState.best_eval_acc ≤ (0, a).2 from ha)]
    exact ⟨rfl, rfl⟩
  · intro a ha
    unfold epochStep
    rw [if_neg (show ¬ initState.best_eval_acc ≤ (0, a).2 from not_le.mpr ha)]
    exact ⟨rfl, rfl⟩
  · intro accs hneg
    have h := foldl_epochStep_neg (List.enumFrom 0 accs) initState
      (fun ea hea => hneg ea.2 (snd_mem_of_mem_enumFrom accs 0 ea hea))
      (by norm_num [initState])
    exact ⟨h.1, h.2.1⟩

/-- Witness for C10: a run whose accuracies are all negative writes no
best checkpoint and no best-metrics file. -/
theorem best_init_zero_policy_witness :
    (train_and_evaluate [-1, -2]).bestCkptEpoch = none
    ∧ (train_and_evaluate [-1, -2]).bestJsonEpochs = [] :=
  best_init_zero_policy.2.2.2 [-1, -2] (by norm_num)

end NER
